import Mathlib

/-!
Verification development for the FastAPI betting-agent backend (`main.py`).

Numeric code is embedded over `ℚ`, with Python's `round(x, 4)` modelled as
decimal rounding half-to-even to 4 places (`round4`).  Fallible endpoints are
embedded as functions returning `Except` together with a trace of externally
visible effects (outbound HTTP requests and database commits).
-/

namespace BettingAgent

/-- Round a rational to the nearest integer, ties to even
(the rounding mode of Python's builtin `round`). -/
def roundHalfEven (q : ℚ) : ℤ :=
  if q - ⌊q⌋ < 1 / 2 then ⌊q⌋
  else if 1 / 2 < q - ⌊q⌋ then ⌊q⌋ + 1
  else if ⌊q⌋ % 2 = 0 then ⌊q⌋ else ⌊q⌋ + 1

/-- Python's `round(x, 4)`: round to 4 decimal places, ties to even. -/
def round4 (q : ℚ) : ℚ :=
  (roundHalfEven (q * 10000) : ℚ) / 10000

theorem roundHalfEven_zero : roundHalfEven 0 = 0 := by
  simp [roundHalfEven]

theorem roundHalfEven_le_add_half (q : ℚ) : (roundHalfEven q : ℚ) ≤ q + 1 / 2 := by
  have hfl := Int.floor_le q
  have hlt := Int.lt_floor_add_one q
  unfold roundHalfEven
  split_ifs with h1 h2 h3 <;> push_cast <;> linarith

theorem le_roundHalfEven_add_half (q : ℚ) : q - 1 / 2 ≤ (roundHalfEven q : ℚ) := by
  have hfl := Int.floor_le q
  have hlt := Int.lt_floor_add_one q
  unfold roundHalfEven
  split_ifs with h1 h2 h3 <;> push_cast <;> linarith

theorem floor_le_roundHalfEven (q : ℚ) : ⌊q⌋ ≤ roundHalfEven q := by
  unfold roundHalfEven
  split_ifs <;> omega

theorem roundHalfEven_le_floor_add_one (q : ℚ) : roundHalfEven q ≤ ⌊q⌋ + 1 := by
  unfold roundHalfEven
  split_ifs <;> omega

theorem roundHalfEven_mono {x y : ℚ} (h : x ≤ y) :
    roundHalfEven x ≤ roundHalfEven y := by
  rcases lt_or_eq_of_le (Int.floor_mono h) with hf | hf
  · calc roundHalfEven x ≤ ⌊x⌋ + 1 := roundHalfEven_le_floor_add_one x
      _ ≤ ⌊y⌋ := by omega
      _ ≤ roundHalfEven y := floor_le_roundHalfEven y
  · have hxy : x - (⌊x⌋ : ℚ) ≤ y - (⌊y⌋ : ℚ) := by
      rw [← hf]; linarith
    unfold roundHalfEven
    rw [hf] at hxy ⊢
    split_ifs with a1 a2 b1 b2 b3 b4 b5 <;>
      first
        | omega
        | (exfalso; linarith)

theorem round4_zero : round4 0 = 0 := by
  simp [round4, roundHalfEven_zero]

theorem round4_mono {x y : ℚ} (h : x ≤ y) : round4 x ≤ round4 y := by
  unfold round4
  have : roundHalfEven (x * 10000) ≤ roundHalfEven (y * 10000) :=
    roundHalfEven_mono (by linarith)
  have : (roundHalfEven (x * 10000) : ℚ) ≤ (roundHalfEven (y * 10000) : ℚ) := by
    exact_mod_cast this
  linarith

theorem round4_nonneg {x : ℚ} (h : 0 ≤ x) : 0 ≤ round4 x := by
  have := round4_mono h
  rwa [round4_zero] at this

/-! ## Risk calculators (`/ev`, `/kelly`) -/

/-- Request body of `/ev` (pydantic `EvInput`). -/
structure EvInput where
  prob : ℚ
  odds : ℚ
  stake : ℚ

/-- The pydantic field constraints of `EvInput`:
`prob` in `[0,1]`, `odds > 1`, `stake > 0`. -/
def EvInput.valid (i : EvInput) : Prop :=
  0 ≤ i.prob ∧ i.prob ≤ 1 ∧ 1 < i.odds ∧ 0 < i.stake

/-- Request body of `/kelly` (pydantic `KellyInput`); `safety` defaults to 0.5. -/
structure KellyInput where
  prob : ℚ
  odds : ℚ
  safety : ℚ := 1 / 2

/-- The pydantic field constraints of `KellyInput`:
`prob` in `[0,1]`, `odds > 1`, `safety` in `(0,1]`. -/
def KellyInput.valid (i : KellyInput) : Prop :=
  0 ≤ i.prob ∧ i.prob ≤ 1 ∧ 1 < i.odds ∧ 0 < i.safety ∧ i.safety ≤ 1

/-- Response of `/ev`. -/
structure EvOutput where
  ev_abs : ℚ
  ev_pct : ℚ
  deriving DecidableEq

/-- Handler of `POST /ev`. -/
def calc_ev (body : EvInput) : EvOutput :=
  let b := body.odds - 1
  let ev_pct := body.prob * b - (1 - body.prob)
  let ev_abs := ev_pct * body.stake
  { ev_abs := round4 ev_abs, ev_pct := round4 ev_pct }

/-- Handler of `POST /kelly`; returns the `kelly_fraction` field. -/
def calc_kelly (body : KellyInput) : ℚ :=
  let b := body.odds - 1
  let k := if b > 0 then (body.prob * body.odds - 1) / b else 0
  round4 (max 0 k * body.safety)

/-- The body of `calc_kelly` with the `b > 0` guard removed: the division is
performed unconditionally. -/
def calcKellyUnguarded (body : KellyInput) : ℚ :=
  round4 (max 0 ((body.prob * body.odds - 1) / (body.odds - 1)) * body.safety)

/-! ## Probability codec -/

/-- A Python value as seen by `prob`: either a numeric (`int`/`float`) value or
anything else (`None`, a string, …). -/
inductive PyVal where
  | num (q : ℚ)
  | other
  deriving DecidableEq

/-- The helper `prob` inside `quote_demo`:
`round(1 / x, 4) if isinstance(x, (int, float)) and x > 0 else 0.0`. -/
def prob : PyVal → ℚ
  | .num q => if 0 < q then round4 (1 / q) else 0
  | .other => 0

/-! ## Provider payload model -/

/-- One entry of a market's `outcomes` list; only its `"price"` field is read. -/
structure Outcome where
  price : PyVal
  deriving DecidableEq

instance : Inhabited Outcome := ⟨⟨.other⟩⟩

/-- One entry of a bookmaker's `markets` list. -/
structure Market where
  key : String
  outcomes : List Outcome
  deriving DecidableEq

/-- One entry of an event's `bookmakers` list; `title` is the display name. -/
structure Bookmaker where
  title : String
  markets : List Market
  deriving DecidableEq

/-- One event object of the provider's odds response. `id` is `none` when the
field is absent (Python `event.get("id")` returning `None`). -/
structure EventPayload where
  id : Option String
  home_team : String
  away_team : String
  commence_time : String
  bookmakers : List Bookmaker
  deriving DecidableEq

/-- The event identifier used by `quote_demo`:
`event.get("id") or f"{home}|{away}|{commence_time}"` — the fallback is used
when `id` is absent or falsy (the empty string). -/
def eventIdOf (ev : EventPayload) : String :=
  match ev.id with
  | some s =>
      if s.isEmpty then ev.home_team ++ "|" ++ ev.away_team ++ "|" ++ ev.commence_time
      else s
  | none => ev.home_team ++ "|" ++ ev.away_team ++ "|" ++ ev.commence_time

/-! ## Persistence model -/

/-- A persisted `Event` row (`models.Event`). -/
structure EventRow where
  id : String
  sport_key : String
  home_team : String
  away_team : String
  commence_time : String
  deriving DecidableEq

/-- A persisted `OddsSnapshot` row (`models.OddsSnapshot`); `raw` keeps the
verbatim market object. -/
structure SnapshotRow where
  event_id : String
  sport_key : String
  bookmaker : String
  market : String
  home_price : PyVal
  draw_price : PyVal
  away_price : PyVal
  raw : Market
  deriving DecidableEq

/-- The database state: the `Event` and `OddsSnapshot` tables, in insertion
order. -/
structure DB where
  events : List EventRow
  snaps : List SnapshotRow
  deriving DecidableEq

/-- One client-facing summary record appended to `results` by `quote_demo`. -/
structure Summary where
  matchLabel : String
  bookmaker : String
  home_win_odds : PyVal
  draw_odds : PyVal
  away_win_odds : PyVal
  prob_home_win : ℚ
  prob_draw : ℚ
  prob_away_win : ℚ
  deriving DecidableEq

/-! ## Ingestion pipeline (persistence part of `quote_demo`) -/

/-- The fixed bookmaker allow-list of `quote_demo`. -/
def allowlist : List String := ["Bet365", "Pinnacle", "William Hill", "Betfair"]

/-- The snapshot row staged for a market with outcomes `[o0, o1, o2]`. -/
def mkSnapshotRow (sport eid bname : String) (m : Market) (o0 o1 o2 : Outcome) :
    SnapshotRow :=
  { event_id := eid, sport_key := sport, bookmaker := bname, market := "h2h",
    home_price := o0.price, draw_price := o1.price, away_price := o2.price,
    raw := m }

/-- The summary record appended for a market with outcomes `[o0, o1, o2]`. -/
def mkSummary (home away bname : String) (o0 o1 o2 : Outcome) : Summary :=
  { matchLabel := home ++ " vs " ++ away, bookmaker := bname,
    home_win_odds := o0.price, draw_odds := o1.price, away_win_odds := o2.price,
    prob_home_win := prob o0.price, prob_draw := prob o1.price,
    prob_away_win := prob o2.price }

/-- The inner market loop body of `quote_demo`: for a market of an allow-listed
bookmaker, stage a snapshot and append a summary when `key == "h2h"` and the
outcome list has exactly 3 elements. -/
def processMarket (sport eid home away bname : String)
    (st : DB × List Summary) (m : Market) : DB × List Summary :=
  if m.key = "h2h" then
    match m.outcomes with
    | [o0, o1, o2] =>
        ({ st.1 with snaps := st.1.snaps ++ [mkSnapshotRow sport eid bname m o0 o1 o2] },
         st.2 ++ [mkSummary home away bname o0 o1 o2])
    | _ => st
  else st

/-- The bookmaker loop body of `quote_demo`: markets are processed only when
the bookmaker's `title` is on the allow-list. -/
def processBookmaker (sport eid home away : String)
    (st : DB × List Summary) (bm : Bookmaker) : DB × List Summary :=
  if bm.title ∈ allowlist then
    bm.markets.foldl (processMarket sport eid home away bm.title) st
  else st

/-- The event loop body of `quote_demo`: insert an `Event` row if none exists
for the derived identifier (create-if-absent), then process the bookmakers. -/
def processEvent (sport : String) (st : DB × List Summary) (ev : EventPayload) :
    DB × List Summary :=
  let eid := eventIdOf ev
  let st1 :=
    if st.1.events.any (fun r => r.id == eid) then st
    else
      ({ st.1 with
          events := st.1.events ++
            [{ id := eid, sport_key := sport, home_team := ev.home_team,
               away_team := ev.away_team, commence_time := ev.commence_time }] },
       st.2)
  ev.bookmakers.foldl (processBookmaker sport eid ev.home_team ev.away_team) st1

/-- The persistence/summary phase of `quote_demo` on a decoded payload:
only the first 5 events are processed (`data[:5]`). -/
def quoteDemoProcess (sport : String) (payload : List EventPayload) (db : DB) :
    DB × List Summary :=
  (payload.take 5).foldl (processEvent sport) (db, [])

/-! ## HTTP layer -/

/-- A JSON value (the result of a successful `resp.json()`). -/
inductive Json where
  | null
  | bool (b : Bool)
  | num (q : ℚ)
  | str (s : String)
  | arr (elems : List Json)
  | obj (fields : List (String × Json))

/-- An upstream response body: the best-effort parse `resp.json()` when it
succeeds, else the raw text `resp.text`. -/
inductive RespBody where
  | jsonBody (j : Json)
  | textBody (s : String)

/-- The `detail` attached to an upstream error:
`detail = resp.json()` if parseable, else `detail = resp.text`. -/
def detailOf : RespBody → RespBody := fun b => b

/-- An `HTTPException` as raised by the handlers: a status code and a detail
body. -/
structure Err where
  status : Nat
  detail : RespBody

/-- Externally visible side effects of a handler, in order: an outbound HTTP
GET, or a database commit making `db` the new persisted state. -/
inductive Effect where
  | httpGet (url : String)
  | commit (db : DB)

/-- The provider's response to the odds request: HTTP status, raw body, and —
when the body is the expected JSON — its decoding as a list of event
objects. -/
structure OddsResponse where
  status : Nat
  body : RespBody
  events : List EventPayload

/-- The provider's response to the sports request. -/
structure SportsResponse where
  status : Nat
  body : RespBody

/-- Dependency `require_api_key`: raises a 500 `HTTPException` when the credential is
absent (or empty, which Python's `not API_KEY` also treats as missing). -/
def require_api_key (apiKey : Option String) : Except Err Unit :=
  match apiKey with
  | none => .error { status := 500, detail := .textBody "Chiave API non configurata" }
  | some s =>
      if s.isEmpty then .error { status := 500, detail := .textBody "Chiave API non configurata" }
      else .ok ()

/-- The odds endpoint URL built by `quote_demo`. -/
def oddsUrl (sport regions markets odds_format key : String) : String :=
  "https://api.the-odds-api.com/v4/sports/" ++ sport ++ "/odds?regions=" ++ regions ++
    "&markets=" ++ markets ++ "&oddsFormat=" ++ odds_format ++ "&apiKey=" ++ key

/-- The sports endpoint URL built by `available_sports`. -/
def sportsUrl (key : String) : String :=
  "https://api.the-odds-api.com/v4/sports?apiKey=" ++ key

/-- Handler of `GET /quote-demo`, as a function of the configured credential,
the provider's (would-be) response and the database state.  Returns the
response or error, together with the ordered trace of outbound requests and
commits actually performed. -/
def quote_demo (apiKey : Option String) (sport regions markets odds_format : String)
    (resp : OddsResponse) (db : DB) : Except Err (List Summary) × List Effect :=
  match require_api_key apiKey with
  | .error e => (.error e, [])
  | .ok _ =>
      let url := oddsUrl sport regions markets odds_format (apiKey.getD "")
      if resp.status = 200 then
        let r := quoteDemoProcess sport resp.events db
        (.ok r.2, [.httpGet url, .commit r.1])
      else
        (.error { status := resp.status, detail := detailOf resp.body },
         [.httpGet url])

/-- Handler of `GET /available-sports`. -/
def available_sports (apiKey : Option String) (resp : SportsResponse) :
    Except Err RespBody × List Effect :=
  match require_api_key apiKey with
  | .error e => (.error e, [])
  | .ok _ =>
      let url := sportsUrl (apiKey.getD "")
      if resp.status = 200 then (.ok resp.body, [.httpGet url])
      else
        (.error { status := resp.status, detail := detailOf resp.body },
         [.httpGet url])

/-- Route handler of `POST /ev`: it performs no credential check, no outbound
request and no persistence write. -/
def ev_endpoint (_apiKey : Option String) (body : EvInput) :
    Except Err EvOutput × List Effect :=
  (.ok (calc_ev body), [])

/-- Route handler of `POST /kelly`: it performs no credential check, no
outbound request and no persistence write. -/
def kelly_endpoint (_apiKey : Option String) (body : KellyInput) :
    Except Err ℚ × List Effect :=
  (.ok (calc_kelly body), [])

/-! ## Ingestion invariants -/

/-- At most one `Event` row per identifier. -/
def uniqueIds (db : DB) : Prop :=
  (db.events.map (fun r => r.id)).Nodup

/-- A sequence of ingestion calls, each giving the sport and the decoded
payload; only the resulting database state is kept. -/
def runCalls (calls : List (String × List EventPayload)) (db : DB) : DB :=
  calls.foldl (fun d c => (quoteDemoProcess c.1 c.2 d).1) db

theorem processMarket_events (sport eid home away bname : String)
    (st : DB × List Summary) (m : Market) :
    (processMarket sport eid home away bname st m).1.events = st.1.events := by
  unfold processMarket
  split
  · split <;> rfl
  · rfl

theorem foldl_processMarket_events (sport eid home away bname : String)
    (ms : List Market) :
    ∀ st : DB × List Summary,
      (ms.foldl (processMarket sport eid home away bname) st).1.events =
        st.1.events := by
  induction ms with
  | nil => intro st; rfl
  | cons m rest ih =>
      intro st
      rw [List.foldl_cons, ih, processMarket_events]

theorem processBookmaker_events (sport eid home away : String)
    (st : DB × List Summary) (bm : Bookmaker) :
    (processBookmaker sport eid home away st bm).1.events = st.1.events := by
  unfold processBookmaker
  split
  · exact foldl_processMarket_events sport eid home away bm.title bm.markets st
  · rfl

theorem foldl_processBookmaker_events (sport eid home away : String)
    (bms : List Bookmaker) :
    ∀ st : DB × List Summary,
      (bms.foldl (processBookmaker sport eid home away) st).1.events =
        st.1.events := by
  induction bms with
  | nil => intro st; rfl
  | cons bm rest ih =>
      intro st
      rw [List.foldl_cons, ih, processBookmaker_events]

/-- The `Event` table after one event-loop iteration: unchanged when a row
with the derived identifier exists, else extended by exactly that one row. -/
theorem processEvent_events (sport : String) (st : DB × List Summary)
    (ev : EventPayload) :
    (processEvent sport st ev).1.events =
      if st.1.events.any (fun r => r.id == eventIdOf ev) then st.1.events
      else
        st.1.events ++
          [{ id := eventIdOf ev, sport_key := sport, home_team := ev.home_team,
             away_team := ev.away_team, commence_time := ev.commence_time }] := by
  unfold processEvent
  rw [foldl_processBookmaker_events]
  split <;> rfl

theorem processEvent_events_nodup (sport : String) (st : DB × List Summary)
    (ev : EventPayload) (h : (st.1.events.map (fun r => r.id)).Nodup) :
    ((processEvent sport st ev).1.events.map (fun r => r.id)).Nodup := by
  rw [processEvent_events]
  split
  · exact h
  · next hany =>
      rw [List.map_append, List.map_singleton]
      rw [List.nodup_append]
      refine ⟨h, List.nodup_singleton _, ?_⟩
      intro a ha
      simp only [List.mem_singleton]
      intro heq
      apply hany
      rw [List.any_eq_true]
      simp only [List.mem_map] at ha
      obtain ⟨r, hr, hrid⟩ := ha
      exact ⟨r, hr, by rw [beq_iff_eq, hrid, heq]⟩

theorem foldl_processEvent_events (sport : String) (evs : List EventPayload) :
    ∀ st : DB × List Summary,
      (st.1.events.map (fun r => r.id)).Nodup →
      ((evs.foldl (processEvent sport) st).1.events.map (fun r => r.id)).Nodup ∧
      ∃ rows, (evs.foldl (processEvent sport) st).1.events =
          st.1.events ++ rows := by
  induction evs with
  | nil => intro st h; exact ⟨h, [], by simp⟩
  | cons ev rest ih =>
      intro st h
      rw [List.foldl_cons]
      obtain ⟨h1, rows, h2⟩ := ih (processEvent sport st ev)
        (processEvent_events_nodup sport st ev h)
      refine ⟨h1, ?_⟩
      rw [h2, processEvent_events]
      split
      · exact ⟨rows, rfl⟩
      · exact ⟨_, List.append_assoc _ _ _⟩

theorem quoteDemoProcess_events (sport : String) (payload : List EventPayload)
    (db : DB) (h : uniqueIds db) :
    uniqueIds (quoteDemoProcess sport payload db).1 ∧
    ∃ rows, (quoteDemoProcess sport payload db).1.events = db.events ++ rows :=
  foldl_processEvent_events sport (payload.take 5) (db, []) h

/-! ## Market-filter characterization (spec side) -/

/-- Modelled from the spec's eligibility wording: the bookmaker's display name
is on the allow-list, the market's key equals the three-way head-to-head key,
and the outcome sequence has exactly 3 elements. -/
def eligiblePair (bname : String) (m : Market) : Bool :=
  allowlist.contains bname && m.key == "h2h" && m.outcomes.length == 3

/-- All (bookmaker-name, market) pairs of one event payload, in traversal
order. -/
def marketPairs (ev : EventPayload) : List (String × Market) :=
  ev.bookmakers.flatMap (fun bm => bm.markets.map (fun m => (bm.title, m)))

/-- The snapshot row an eligible pair yields (outcome positions 0, 1, 2). -/
def snapOfPair (sport eid : String) (p : String × Market) : SnapshotRow :=
  mkSnapshotRow sport eid p.1 p.2 (p.2.outcomes.getD 0 default)
    (p.2.outcomes.getD 1 default) (p.2.outcomes.getD 2 default)

/-- The summary record an eligible pair yields. -/
def summaryOfPair (home away : String) (p : String × Market) : Summary :=
  mkSummary home away p.1 (p.2.outcomes.getD 0 default)
    (p.2.outcomes.getD 1 default) (p.2.outcomes.getD 2 default)

theorem processMarket_spec (sport eid home away bname : String)
    (st : DB × List Summary) (m : Market) :
    processMarket sport eid home away bname st m =
      if m.key == "h2h" && m.outcomes.length == 3 then
        ({ st.1 with snaps := st.1.snaps ++ [snapOfPair sport eid (bname, m)] },
         st.2 ++ [summaryOfPair home away (bname, m)])
      else st := by
  unfold processMarket
  by_cases hk : m.key = "h2h"
  · rw [if_pos hk]
    rcases houts : m.outcomes with - | ⟨o0, - | ⟨o1, - | ⟨o2, - | ⟨o3, rest⟩⟩⟩⟩ <;>
      simp [houts, hk, snapOfPair, summaryOfPair, mkSnapshotRow, mkSummary]
  · rw [if_neg hk]
    have : (m.key == "h2h") = false := beq_eq_false_iff_ne.mpr hk
    simp [this]

theorem foldl_processMarket_spec (sport eid home away bname : String)
    (ms : List Market) :
    ∀ st : DB × List Summary,
      (ms.foldl (processMarket sport eid home away bname) st).1.snaps =
        st.1.snaps ++
          ((ms.filter fun m => m.key == "h2h" && m.outcomes.length == 3).map
            fun m => snapOfPair sport eid (bname, m)) ∧
      (ms.foldl (processMarket sport eid home away bname) st).2 =
        st.2 ++
          ((ms.filter fun m => m.key == "h2h" && m.outcomes.length == 3).map
            fun m => summaryOfPair home away (bname, m)) := by
  induction ms with
  | nil => intro st; simp
  | cons m rest ih =>
      intro st
      rw [List.foldl_cons, processMarket_spec]
      by_cases hc : (m.key == "h2h" && m.outcomes.length == 3) = true
      · rw [if_pos hc]
        obtain ⟨ih1, ih2⟩ := ih
          ({ st.1 with snaps := st.1.snaps ++ [snapOfPair sport eid (bname, m)] },
           st.2 ++ [summaryOfPair home away (bname, m)])
        refine ⟨?_, ?_⟩
        · rw [ih1]
          simp [List.filter_cons, hc, List.append_assoc]
        · rw [ih2]
          simp [List.filter_cons, hc, List.append_assoc]
      · rw [if_neg hc]
        obtain ⟨ih1, ih2⟩ := ih st
        refine ⟨?_, ?_⟩
        · rw [ih1]
          simp [List.filter_cons, eq_false_of_ne_true hc]
        · rw [ih2]
          simp [List.filter_cons, eq_false_of_ne_true hc]

theorem processBookmaker_spec (sport eid home away : String)
    (st : DB × List Summary) (bm : Bookmaker) :
    (processBookmaker sport eid home away st bm).1.snaps =
      st.1.snaps ++
        (((bm.markets.map fun m => (bm.title, m)).filter
            fun p => eligiblePair p.1 p.2).map (snapOfPair sport eid)) ∧
    (processBookmaker sport eid home away st bm).2 =
      st.2 ++
        (((bm.markets.map fun m => (bm.title, m)).filter
            fun p => eligiblePair p.1 p.2).map (summaryOfPair home away)) := by
  unfold processBookmaker
  rw [List.filter_map]
  by_cases hmem : bm.title ∈ allowlist
  · rw [if_pos hmem]
    obtain ⟨h1, h2⟩ := foldl_processMarket_spec sport eid home away bm.title bm.markets st
    have hfe : (bm.markets.filter ((fun p : String × Market => eligiblePair p.1 p.2) ∘
          fun m => (bm.title, m))) =
        bm.markets.filter fun m => m.key == "h2h" && m.outcomes.length == 3 := by
      apply List.filter_congr
      intro m _
      simp [Function.comp, eligiblePair, hmem]
    rw [hfe, List.map_map, List.map_map]
    exact ⟨h1, h2⟩
  · rw [if_neg hmem]
    have hfe : (bm.markets.filter ((fun p : String × Market => eligiblePair p.1 p.2) ∘
        fun m => (bm.title, m))) = [] := by
      apply List.filter_eq_nil_iff.mpr
      intro m _
      simp [Function.comp, eligiblePair, hmem]
    rw [hfe]
    simp

theorem foldl_processBookmaker_spec (sport eid home away : String)
    (bms : List Bookmaker) :
    ∀ st : DB × List Summary,
      (bms.foldl (processBookmaker sport eid home away) st).1.snaps =
        st.1.snaps ++
          (((bms.flatMap fun bm => bm.markets.map fun m => (bm.title, m)).filter
              fun p => eligiblePair p.1 p.2).map (snapOfPair sport eid)) ∧
      (bms.foldl (processBookmaker sport eid home away) st).2 =
        st.2 ++
          (((bms.flatMap fun bm => bm.markets.map fun m => (bm.title, m)).filter
              fun p => eligiblePair p.1 p.2).map (summaryOfPair home away)) := by
  induction bms with
  | nil => intro st; simp
  | cons bm rest ih =>
      intro st
      rw [List.foldl_cons]
      obtain ⟨ih1, ih2⟩ := ih (processBookmaker sport eid home away st bm)
      obtain ⟨hb1, hb2⟩ := processBookmaker_spec sport eid home away st bm
      refine ⟨?_, ?_⟩
      · rw [ih1, hb1, List.flatMap_cons, List.filter_append, List.map_append,
          List.append_assoc]
      · rw [ih2, hb2, List.flatMap_cons, List.filter_append, List.map_append,
          List.append_assoc]

/-! ## Claim theorems -/

/-- Claim C1: for every input with probability in `[0,1]`, decimal odds `> 1`
and stake `> 0`, the EV calculator returns
`ev_percentage = round4 (probability*(odds-1) - (1-probability))` and
`ev_absolute = round4 ((probability*(odds-1) - (1-probability)) * stake)`,
with no error path on this domain (`calc_ev` is a total function). -/
theorem ev_calculator_correct (i : EvInput) (_h : i.valid) :
    (calc_ev i).ev_pct = round4 (i.prob * (i.odds - 1) - (1 - i.prob)) ∧
    (calc_ev i).ev_abs = round4 ((i.prob * (i.odds - 1) - (1 - i.prob)) * i.stake) :=
  ⟨rfl, rfl⟩

theorem ev_calculator_correct_witness :
    EvInput.valid ⟨6/10, 2, 100⟩ ∧
    ((calc_ev ⟨6/10, 2, 100⟩).ev_pct = round4 ((6/10) * (2 - 1) - (1 - 6/10)) ∧
     (calc_ev ⟨6/10, 2, 100⟩).ev_abs = round4 (((6/10) * (2 - 1) - (1 - 6/10)) * 100)) ∧
    (calc_ev ⟨6/10, 2, 100⟩).ev_pct = 2/10 ∧ (calc_ev ⟨6/10, 2, 100⟩).ev_abs = 20 :=
  ⟨by norm_num [EvInput.valid],
   ev_calculator_correct ⟨6/10, 2, 100⟩ (by norm_num [EvInput.valid]),
   by norm_num [calc_ev, round4, roundHalfEven],
   by norm_num [calc_ev, round4, roundHalfEven]⟩

/-- Claim C2: for every input with probability in `[0,1]`, decimal odds `> 1`
and safety in `(0,1]`, the Kelly calculator computes `b = odds - 1`, raw
`k = (probability*odds - 1)/b` (the `b > 0` branch applies on this domain),
and returns `max(0, k) * safety` rounded to 4 decimal places. -/
theorem kelly_calculator_correct (i : KellyInput) (h : i.valid) :
    calc_kelly i =
      round4 (max 0 ((i.prob * i.odds - 1) / (i.odds - 1)) * i.safety) := by
  obtain ⟨-, -, ho, -, -⟩ := h
  simp only [calc_kelly]
  rw [if_pos (by linarith : i.odds - 1 > 0)]

theorem kelly_calculator_correct_witness :
    KellyInput.valid ⟨6/10, 2, 1/2⟩ ∧
    calc_kelly ⟨6/10, 2, 1/2⟩ =
      round4 (max 0 (((6:ℚ)/10 * 2 - 1) / (2 - 1)) * (1/2)) ∧
    calc_kelly ⟨6/10, 2, 1/2⟩ = 1/10 :=
  ⟨by norm_num [KellyInput.valid],
   kelly_calculator_correct ⟨6/10, 2, 1/2⟩ (by norm_num [KellyInput.valid]),
   by norm_num [calc_kelly, round4, roundHalfEven]⟩

/-- Claim C3: the probability codec returns `round4 (1/price)` when `price` is
a positive number, and `0` for every non-positive or non-numeric price;
`prob` is a total function, so no exception is possible. -/
theorem prob_codec_correct :
    (∀ q : ℚ, 0 < q → prob (.num q) = round4 (1 / q)) ∧
    (∀ q : ℚ, q ≤ 0 → prob (.num q) = 0) ∧
    prob .other = 0 := by
  refine ⟨fun q hq => ?_, fun q hq => ?_, rfl⟩
  · simp only [prob, if_pos hq]
  · simp only [prob, if_neg (not_lt.mpr hq)]

theorem prob_codec_correct_witness :
    (0 < (2:ℚ) ∧ prob (.num 2) = round4 (1 / 2)) ∧
    ((-3:ℚ) ≤ 0 ∧ prob (.num (-3)) = 0) ∧
    prob .other = 0 ∧ prob (.num 2) = 1/2 :=
  ⟨⟨by norm_num, prob_codec_correct.1 2 (by norm_num)⟩,
   ⟨by norm_num, prob_codec_correct.2.1 (-3) (by norm_num)⟩,
   prob_codec_correct.2.2,
   by norm_num [prob, round4, roundHalfEven]⟩

/-- Claim C8 counterexample: at the valid input `prob = 1`, `odds = 2`,
`safety = 0.00006`, the Kelly calculator returns `0.0001 > safety`, so the
result does not lie in `[0, safety]` as claimed. -/
theorem kelly_range_counterexample :
    KellyInput.valid ⟨1, 2, 6/100000⟩ ∧
    ¬ calc_kelly ⟨1, 2, 6/100000⟩ ≤ 6/100000 := by
  constructor
  · norm_num [KellyInput.valid]
  · norm_num [calc_kelly, round4, roundHalfEven]

/-- Claim C8 (amended): for every valid Kelly input the returned fraction lies
in `[0, round4 safety]` (rounding the result to 4 decimals can push it just
above a `safety` that is not a 4-decimal value), and it equals 0 whenever
`probability*odds ≤ 1`. -/
theorem kelly_result_range (i : KellyInput) (h : i.valid) :
    0 ≤ calc_kelly i ∧ calc_kelly i ≤ round4 i.safety ∧
    (i.prob * i.odds ≤ 1 → calc_kelly i = 0) := by
  obtain ⟨hp0, hp1, ho, hs0, hs1⟩ := h
  have hb : i.odds - 1 > 0 := by linarith
  have hck : calc_kelly i =
      round4 (max 0 ((i.prob * i.odds - 1) / (i.odds - 1)) * i.safety) := by
    simp only [calc_kelly]
    rw [if_pos hb]
  refine ⟨?_, ?_, fun hpo => ?_⟩
  · rw [hck]
    exact round4_nonneg (mul_nonneg (le_max_left 0 _) hs0.le)
  · rw [hck]
    apply round4_mono
    have hk1 : (i.prob * i.odds - 1) / (i.odds - 1) ≤ 1 := by
      rw [div_le_one hb]
      nlinarith
    have hmax : max 0 ((i.prob * i.odds - 1) / (i.odds - 1)) ≤ 1 :=
      max_le (by norm_num) hk1
    nlinarith [le_max_left (0:ℚ) ((i.prob * i.odds - 1) / (i.odds - 1))]
  · rw [hck]
    have hknp : (i.prob * i.odds - 1) / (i.odds - 1) ≤ 0 :=
      div_nonpos_iff.mpr (Or.inr ⟨by linarith, hb.le⟩)
    rw [max_eq_left hknp, zero_mul, round4_zero]

theorem kelly_result_range_witness :
    KellyInput.valid ⟨4/10, 2, 1/2⟩ ∧
    (0 ≤ calc_kelly ⟨4/10, 2, 1/2⟩ ∧
     calc_kelly ⟨4/10, 2, 1/2⟩ ≤ round4 (1/2) ∧
     ((4:ℚ)/10 * 2 ≤ 1 → calc_kelly ⟨4/10, 2, 1/2⟩ = 0)) ∧
    calc_kelly ⟨4/10, 2, 1/2⟩ = 0 :=
  ⟨by norm_num [KellyInput.valid],
   kelly_result_range ⟨4/10, 2, 1/2⟩ (by norm_num [KellyInput.valid]),
   (kelly_result_range ⟨4/10, 2, 1/2⟩ (by norm_num [KellyInput.valid])).2.2
     (by norm_num)⟩

/-- Claim C4: ingestion creates an `Event` row only if none exists for the
derived identifier, so after any sequence of ingestion calls starting from a
state with at most one `Event` row per id, the invariant still holds, and
the pre-existing rows are preserved unchanged (never overwritten): the new
table is the old one plus appended rows. -/
theorem event_rows_idempotent (calls : List (String × List EventPayload))
    (db : DB) (h : uniqueIds db) :
    uniqueIds (runCalls calls db) ∧
    ∃ rows, (runCalls calls db).events = db.events ++ rows := by
  induction calls generalizing db with
  | nil => exact ⟨h, [], by simp [runCalls]⟩
  | cons c rest ih =>
      obtain ⟨h1, rows1, e1⟩ := quoteDemoProcess_events c.1 c.2 db h
      obtain ⟨h2, rows2, e2⟩ := ih (quoteDemoProcess c.1 c.2 db).1 h1
      refine ⟨h2, rows1 ++ rows2, ?_⟩
      show (runCalls rest (quoteDemoProcess c.1 c.2 db).1).events = _
      rw [e2, e1, List.append_assoc]

theorem event_rows_idempotent_witness :
    uniqueIds ⟨[], []⟩ ∧
    (uniqueIds (runCalls
        [("soccer_epl", [⟨some "e1", "A", "B", "t", []⟩]),
         ("soccer_epl", [⟨some "e1", "A", "B", "t", []⟩])] ⟨[], []⟩) ∧
     ∃ rows, (runCalls
        [("soccer_epl", [⟨some "e1", "A", "B", "t", []⟩]),
         ("soccer_epl", [⟨some "e1", "A", "B", "t", []⟩])] ⟨[], []⟩).events =
          ([] : List EventRow) ++ rows) :=
  ⟨by simp [uniqueIds],
   event_rows_idempotent _ ⟨[], []⟩ (by simp [uniqueIds])⟩

/-- Claim C5: the ingestion pipeline processes only the first 5 events of the
payload — processing any payload gives exactly the same database state and
the same summaries as processing its first 5 events, so a payload with more
than 5 events contributes nothing beyond the first 5. -/
theorem ingestion_truncates_to_five (sport : String)
    (payload : List EventPayload) (db : DB) :
    quoteDemoProcess sport payload db =
      quoteDemoProcess sport (payload.take 5) db := by
  unfold quoteDemoProcess
  rw [List.take_take, min_self]

/-- Claim C6: for every event payload, a (bookmaker, market) pair yields a
snapshot and a summary if and only if it is eligible — the bookmaker's
display name is on the fixed allow-list, the market's key equals the
three-way head-to-head key `"h2h"`, and the outcome sequence has exactly 3
elements: the staged snapshots and appended summaries are exactly the images
of the eligible pairs, in order; in particular a market with outcome count
`≠ 3` produces neither a snapshot nor a summary. -/
theorem market_filter_eligibility (sport : String) (st : DB × List Summary)
    (ev : EventPayload) :
    (processEvent sport st ev).1.snaps =
      st.1.snaps ++
        (((marketPairs ev).filter fun p => eligiblePair p.1 p.2).map
          (snapOfPair sport (eventIdOf ev))) ∧
    (processEvent sport st ev).2 =
      st.2 ++
        (((marketPairs ev).filter fun p => eligiblePair p.1 p.2).map
          (summaryOfPair ev.home_team ev.away_team)) := by
  unfold marketPairs
  have main := foldl_processBookmaker_spec sport (eventIdOf ev) ev.home_team
    ev.away_team ev.bookmakers
  by_cases hany : (st.1.events.any fun r => r.id == eventIdOf ev) = true
  · have heq : processEvent sport st ev =
        ev.bookmakers.foldl
          (processBookmaker sport (eventIdOf ev) ev.home_team ev.away_team) st := by
      simp only [processEvent, hany, if_true]
    rw [heq]
    exact main st
  · have heq : processEvent sport st ev =
        ev.bookmakers.foldl
          (processBookmaker sport (eventIdOf ev) ev.home_team ev.away_team)
          ({ st.1 with
              events := st.1.events ++
                [{ id := eventIdOf ev, sport_key := sport,
                   home_team := ev.home_team, away_team := ev.away_team,
                   commence_time := ev.commence_time }] }, st.2) := by
      have hfalse : (st.1.events.any fun r => r.id == eventIdOf ev) = false := by
        rwa [Bool.not_eq_true] at hany
      simp only [processEvent, hfalse, Bool.false_eq_true, if_false]
    rw [heq]
    exact main _

/-- Claim C7: when the provider responds with a non-success status, the call
fails with an error carrying the upstream status code and the upstream body
(parsed JSON if parseable, else raw text — never a synthesized message), the
only effect is the outbound request itself, and no commit occurs, so no
`Event` or `OddsSnapshot` rows from that call are written. -/
theorem upstream_error_propagates (key sport regions markets odds_format : String)
    (resp : OddsResponse) (db : DB) (hk : key.isEmpty = false)
    (hs : resp.status ≠ 200) :
    quote_demo (some key) sport regions markets odds_format resp db =
      (.error { status := resp.status, detail := detailOf resp.body },
       [.httpGet (oddsUrl sport regions markets odds_format key)]) ∧
    ∀ d, Effect.commit d ∉
        (quote_demo (some key) sport regions markets odds_format resp db).2 := by
  have heq : quote_demo (some key) sport regions markets odds_format resp db =
      (.error { status := resp.status, detail := detailOf resp.body },
       [.httpGet (oddsUrl sport regions markets odds_format key)]) := by
    simp only [quote_demo, require_api_key, hk, Bool.false_eq_true, if_false,
      Option.getD_some]
    rw [if_neg hs]
  refine ⟨heq, fun d hmem => ?_⟩
  rw [heq] at hmem
  simp only [List.mem_singleton] at hmem
  exact Effect.noConfusion hmem

theorem upstream_error_propagates_witness :
    ("k".isEmpty = false ∧ (401 : Nat) ≠ 200) ∧
    (quote_demo (some "k") "soccer_epl" "uk" "h2h" "decimal"
        ⟨401, .textBody "Unauthorized", []⟩ ⟨[], []⟩ =
      (.error { status := 401, detail := detailOf (.textBody "Unauthorized") },
       [.httpGet (oddsUrl "soccer_epl" "uk" "h2h" "decimal" "k")]) ∧
     ∀ d, Effect.commit d ∉
        (quote_demo (some "k") "soccer_epl" "uk" "h2h" "decimal"
          ⟨401, .textBody "Unauthorized", []⟩ ⟨[], []⟩).2) :=
  ⟨⟨rfl, by norm_num⟩,
   upstream_error_propagates "k" "soccer_epl" "uk" "h2h" "decimal"
     ⟨401, .textBody "Unauthorized", []⟩ ⟨[], []⟩ rfl (by norm_num)⟩

/-- Claim C9: with the provider credential absent, `quote_demo` and
`available_sports` fail with the configuration error and perform no effect at
all — no outbound request and no persistence write — while the EV and Kelly
calculators always succeed regardless of the credential. -/
theorem missing_credential_fails_fast :
    (∀ sport regions markets odds_format resp db,
        quote_demo none sport regions markets odds_format resp db =
          (.error { status := 500, detail := .textBody "Chiave API non configurata" },
           [])) ∧
    (∀ resp, available_sports none resp =
          (.error { status := 500, detail := .textBody "Chiave API non configurata" },
           [])) ∧
    (∀ apiKey body, ev_endpoint apiKey body = (.ok (calc_ev body), [])) ∧
    (∀ apiKey body, kelly_endpoint apiKey body = (.ok (calc_kelly body), [])) :=
  ⟨fun _ _ _ _ _ _ => rfl, fun _ => rfl, fun _ _ => rfl, fun _ _ => rfl⟩

/-- Claim C10: under the validated precondition `odds > 1`, the Kelly
calculator's division is guarded: `b = odds - 1` is strictly positive (in
particular nonzero, so the division is by a nonzero value), the `b > 0`
branch is always taken, and the result coincides with the variant that
divides unconditionally (the `else` branch `k = 0.0` is unreachable). -/
theorem kelly_division_guarded (i : KellyInput) (h : 1 < i.odds) :
    0 < i.odds - 1 ∧ i.odds - 1 ≠ 0 ∧ calc_kelly i = calcKellyUnguarded i := by
  have hb : i.odds - 1 > 0 := by linarith
  refine ⟨hb, ne_of_gt hb, ?_⟩
  simp only [calc_kelly, calcKellyUnguarded]
  rw [if_pos hb]

theorem kelly_division_guarded_witness :
    (1:ℚ) < 2 ∧
    (0 < (2:ℚ) - 1 ∧ ((2:ℚ) - 1 ≠ 0) ∧
      calc_kelly ⟨6/10, 2, 1/2⟩ = calcKellyUnguarded ⟨6/10, 2, 1/2⟩) :=
  ⟨by norm_num, kelly_division_guarded ⟨6/10, 2, 1/2⟩ (by norm_num)⟩

end BettingAgent
